import Mathlib

/- Verification of the Clawpilot skills subsystem: a shallow embedding in Lean of
the manifest loaders, eligibility evaluator, configuration overlay resolver,
environment scope guard and skill removal command from src/skills, together
with theorems settling the specification claims about them.

Strings are handled through structurally recursive helpers over the underlying
character lists so that every definition evaluates inside the kernel. Rust
`trim` is modelled as ASCII-whitespace trimming. Ambient effects (the process
environment, the filesystem, TOML and JSON parsing of companion files) are
modelled as explicit parameters, as the specification itself recommends for
testability. -/

namespace Clawpilot

/-! ## String primitives (structural models of the Rust string operations used) -/

def nlChar : Char := Char.ofNat 10
def crChar : Char := Char.ofNat 13
def tabChar : Char := Char.ofNat 9
def quoteChar : Char := Char.ofNat 39
def backslashChar : Char := Char.ofNat 92

/-- ASCII whitespace, modelling the characters Rust `trim` removes in the
documents at hand. -/
def isWsChar (c : Char) : Bool :=
  c = ' ' || c = tabChar || c = nlChar || c = crChar

def trimLeftChars : List Char → List Char
  | [] => []
  | c :: cs => if isWsChar c then trimLeftChars cs else c :: cs

/-- Model of Rust `str::trim`. -/
def strTrim (s : String) : String :=
  ⟨(trimLeftChars (trimLeftChars s.data.reverse).reverse)⟩

def strMk (l : List Char) : String := ⟨l⟩

/-- Split a character list at every occurrence of `sep`; never returns `[]`. -/
def splitOnCharAux (sep : Char) : List Char → List Char → List (List Char)
  | [], acc => [acc.reverse]
  | c :: cs, acc =>
    if c = sep then acc.reverse :: splitOnCharAux sep cs []
    else splitOnCharAux sep cs (c :: acc)

/-- Model of Rust `str::split(sep)` for a single-character separator. -/
def splitOnChar (s : String) (sep : Char) : List String :=
  (splitOnCharAux sep s.data []).map strMk

/-- Model of Rust `str::split_once(sep)`. -/
def splitOnceChar (s : String) (sep : Char) : Option (String × String) :=
  match splitOnCharAux sep s.data [] with
  | [] => none
  | [_] => none
  | first :: rest => some (strMk first, strMk (List.intercalate [sep] rest))

def listIsPrefix : List Char → List Char → Bool
  | [], _ => true
  | _ :: _, [] => false
  | a :: as, b :: bs => a = b && listIsPrefix as bs

/-- Model of Rust `str::contains` with a string pattern (substring search). -/
def strContainsSub (s pat : String) : Bool :=
  go pat.data s.data
where
  go (p : List Char) : List Char → Bool
    | [] => listIsPrefix p []
    | c :: cs => listIsPrefix p (c :: cs) || go p cs

/-- Model of Rust `str::contains` with a character pattern. -/
def strContainsChar (s : String) (c : Char) : Bool :=
  s.data.any (fun d => d = c)

/-- Model of Rust `str::starts_with` for a single-character pattern. -/
def strStartsWithChar (s : String) (c : Char) : Bool :=
  match s.data with
  | [] => false
  | d :: _ => d = c

/-- Join strings with a separator; model of `Vec::join`. -/
def strJoin (sep : String) : List String → String
  | [] => ""
  | [s] => s
  | s :: rest => s ++ sep ++ strJoin sep rest

/-- Strip one trailing carriage return, used by the line splitter. -/
def stripCRChars (l : List Char) : List Char :=
  match l.reverse with
  | c :: rest => if c = crChar then rest.reverse else l
  | [] => l

/-- Model of Rust `str::lines`: split at every newline, treat a carriage
return directly before a newline as part of the terminator, and produce no
final empty line for a trailing newline. -/
def rustLines (s : String) : List String :=
  if s.data = [] then []
  else
    let parts := splitOnCharAux nlChar s.data []
    if parts.getLast? = some [] then (parts.dropLast).map (fun l => strMk (stripCRChars l))
    else (parts.dropLast).map (fun l => strMk (stripCRChars l)) ++ [strMk (parts.getLastD [])]

/-! ## Association lists (model of `HashMap` lookup and of the process environment) -/

/-- First-match lookup in an association list, modelling `HashMap::get`. -/
def lookupKV {α : Type} : List (String × α) → String → Option α
  | [], _ => none
  | kv :: rest, k => if kv.1 = k then some kv.2 else lookupKV rest k

/-! ## Data model (from src/skills/mod.rs and src/skills/types.rs) -/

/-- JSON values, the target of the abstracted `serde_json` parser. -/
inductive Json where
  | obj (fields : List (String × Json))
  | arr (elems : List Json)
  | str (s : String)
  | num (n : Int)
  | bool (b : Bool)
  | null

/-- Model of `serde_json::Value::is_object`. -/
def Json.isObject : Json → Bool
  | .obj _ => true
  | _ => false

/-- TOML values as far as `has_config_key` walks them: tables keyed by
strings, with every non-table value collapsed to `value`. -/
inductive Toml where
  | table (entries : List (String × Toml))
  | value

/-- Model of `toml::Value::get`. -/
def Toml.get : Toml → String → Option Toml
  | .table entries, k => lookupKV entries k
  | .value, _ => none

/-- The three recognized operating system tags (`SkillOs`). -/
inductive SkillOs where
  | linux
  | darwin
  | win32
deriving DecidableEq

/-- Debug rendering of `SkillOs`, as produced by the `{:?}` format. -/
def osDebug : SkillOs → String
  | .linux => "Linux"
  | .darwin => "Darwin"
  | .win32 => "Win32"

/-- A tool defined by a skill (`SkillTool`). -/
structure SkillTool where
  name : String
  description : String
  kind : String
  command : String
  args : List (String × String)
deriving DecidableEq

/-- A discovered skill (`Skill`). The `location` path field is omitted: it is
only carried for display. -/
structure Skill where
  name : String
  description : String
  version : String
  author : Option String
  tags : List String
  tools : List SkillTool
  prompts : List String
  eligible : Bool
  ineligibleReasons : List String
  skillKey : String
  primaryEnv : Option String
  requiresEnv : List String
deriving DecidableEq

/-- A per-skill configuration overlay entry (`SkillEntryConfig`); the maps are
modelled as association lists. -/
structure SkillEntryConfig where
  enabled : Option Bool
  apiKey : Option String
  env : List (String × String)
  config : List (String × Json)

/-- The requirements block of the gating metadata (`SkillRequires`). -/
structure SkillRequires where
  bins : List String
  anyBins : List String
  env : List String
  config : List String
deriving DecidableEq

/-- Gating metadata (`SkillOpenClawMetadata`). The optional `skillKey` and
`primaryEnv` fields are carried because `load_skill_toml` reads them from the
metadata when building a `Skill`. -/
structure SkillOpenClawMetadata where
  always : Bool
  os : Option SkillOs
  requires : SkillRequires
  skillKey : Option String
  primaryEnv : Option String
deriving DecidableEq

structure SkillManifestMetadata where
  openclaw : Option SkillOpenClawMetadata
deriving DecidableEq

/-- The `[skill]` table of a structured manifest (`SkillMeta`), with the
requirements list `load_skill_toml` reads for `requires_env`. -/
structure SkillMeta where
  name : String
  description : String
  version : String
  author : Option String
  tags : List String
  metadata : SkillManifestMetadata
  requirements : SkillRequires
deriving DecidableEq

/-- A parsed structured manifest (`SkillManifest`). -/
structure SkillManifest where
  skill : SkillMeta
  tools : List SkillTool
  prompts : List String
  metadata : SkillManifestMetadata
deriving DecidableEq

/-- Ambient system state threaded explicitly: the process environment
(`std::env::var`), the regular-file test (`Path::is_file`), and the outcome of
reading and TOML-parsing the companion configuration file that
`workspace_config_path` locates next to the workspace (`none` models a missing
or unparsable file). The current platform tag stands for the `cfg!` checks. -/
structure SysCtx where
  realEnv : String → Option String
  isFile : String → Bool
  configToml : Option Toml
  curOs : SkillOs

/-! ## Environment scope guard

The guard type itself (`SkillEnvGuard::new`, `capture` and its `Drop`
restoration) is not among the sources; only its caller
`apply_env_overrides_for_run_with_entries` is. The guard is therefore
modelled from the spec, and the process environment is modelled as an
association list manipulated explicitly. -/

/-- The process environment: an association list read through `lookupKV`. -/
abbrev EnvState := List (String × String)

/-- Model of `std::env::var` (`none` is the error case). -/
def envVar (e : EnvState) (k : String) : Option String := lookupKV e k

/-- Model of `std::env::set_var`. -/
def setVar (e : EnvState) (k v : String) : EnvState := (k, v) :: e

/-- Model of `std::env::remove_var`. -/
def removeVar (e : EnvState) (k : String) : EnvState :=
  e.filter (fun kv => !(kv.1 = k : Bool))

/-- Modelled from the spec: the environment scope guard owns a capture map,
created empty at construction, recording for each captured name the
pre-mutation value (`some v`) or its explicit absence (`none`). -/
structure SkillEnvGuard where
  saved : List (String × Option String)

/-- Modelled from the spec: a guard starts with an empty capture map. -/
def SkillEnvGuard.new : SkillEnvGuard := ⟨[]⟩

/-- Modelled from the spec: before the first mutation of a variable, capture
its pre-mutation value exactly once; a later capture of the same name within
the same guard must not re-capture. -/
def SkillEnvGuard.capture (g : SkillEnvGuard) (k : String) (e : EnvState) : SkillEnvGuard :=
  if g.saved.any (fun kv => kv.1 = k) then g else ⟨g.saved ++ [(k, envVar e k)]⟩

/-- Restore the captured entries in order: set a variable captured with a
value, remove a variable captured as absent. -/
def restoreList : List (String × Option String) → EnvState → EnvState
  | [], e => e
  | (k, some v) :: rest, e => restoreList rest (setVar e k v)
  | (k, none) :: rest, e => restoreList rest (removeVar e k)

/-- Modelled from the spec: on guard disposal, restore every captured
variable to its captured value, or remove it entirely if captured as absent. -/
def SkillEnvGuard.restore (g : SkillEnvGuard) (e : EnvState) : EnvState :=
  restoreList g.saved e

/-- One iteration of the `for (key, value) in &entry.env` loop of
`apply_env_overrides_for_run_with_entries`: inject the variable only when it
is not already set, capturing it first. -/
def applyEnvStepForEntry (st : SkillEnvGuard × EnvState) (kv : String × String) :
    SkillEnvGuard × EnvState :=
  if (envVar st.2 kv.1).isNone then (st.1.capture kv.1 st.2, setVar st.2 kv.1 kv.2)
  else st

/-- The `if let (Some(primary_env), Some(api_key))` step of
`apply_env_overrides_for_run_with_entries`: inject the API key under the
primary environment variable when both are declared, the variable is not
already set, and it is not covered by the explicit environment map. -/
def applyPrimaryEnv (entry : SkillEntryConfig) (primaryEnvOpt : Option String)
    (st1 : SkillEnvGuard × EnvState) : SkillEnvGuard × EnvState :=
  match primaryEnvOpt with
  | none => st1
  | some primaryEnv =>
    match entry.apiKey with
    | none => st1
    | some apiKey =>
      if (envVar st1.2 primaryEnv).isNone && (lookupKV entry.env primaryEnv).isNone then
        (st1.1.capture primaryEnv st1.2, setVar st1.2 primaryEnv apiKey)
      else st1

/-- The body of the outer `for skill in skills` loop of
`apply_env_overrides_for_run_with_entries`: skip skills without an overlay
entry, inject the explicit environment map, then run the primary-variable
API-key injection. -/
def applyEnvForSkill (entries : List (String × SkillEntryConfig))
    (st : SkillEnvGuard × EnvState) (skill : Skill) : SkillEnvGuard × EnvState :=
  match lookupKV entries skill.skillKey with
  | none => st
  | some entry => applyPrimaryEnv entry skill.primaryEnv (entry.env.foldl applyEnvStepForEntry st)

/-- Model of `apply_env_overrides_for_run_with_entries`: build a fresh guard
and walk the skill list, returning the guard together with the mutated
environment. -/
def apply_env_overrides_for_run_with_entries (skills : List Skill)
    (entries : List (String × SkillEntryConfig)) (env0 : EnvState) :
    SkillEnvGuard × EnvState :=
  skills.foldl (applyEnvForSkill entries) (SkillEnvGuard.new, env0)

/-! ## Eligibility evaluator (evaluate_skill_eligibility and helpers) -/

/-- A single-quote string, used when rendering reason messages. -/
def sq : String := strMk [quoteChar]

def osReason (required current : SkillOs) : String :=
  "requires os=" ++ osDebug required ++ ", current os=" ++ osDebug current

def missingBinReason (bin : String) : String :=
  "missing required binary " ++ sq ++ bin ++ sq ++ " on PATH"

def anyBinsReason (bins : List String) : String :=
  "missing any required binary on PATH (" ++ strJoin ", " bins ++ ")"

def missingEnvReason (envName : String) : String :=
  "missing required env " ++ sq ++ envName ++ sq

def configReason (key : String) : String :=
  "requires.config " ++ sq ++ key ++ sq ++ " unsupported currently (no matching config found)"

/-- Model of `Path::join` as used on search-path directories. -/
def pathJoin (dir file : String) : String :=
  if dir = "" then file else dir ++ "/" ++ file

/-- Model of `find_binary_in_path`: an empty or blank name never resolves; a
name containing the path separator is tested directly as a file; otherwise
each directory of the effective search path (override first, else the real
`PATH`) is joined with the name and tested. -/
def find_binary_in_path (ctx : SysCtx) (bin : String) (pathOverride : Option String) : Bool :=
  if strTrim bin = "" then false
  else if strContainsChar bin '/' then ctx.isFile bin
  else
    match pathOverride with
    | some pv => (splitOnChar pv ':').any (fun dir => ctx.isFile (pathJoin dir bin))
    | none =>
      match ctx.realEnv "PATH" with
      | some pv => (splitOnChar pv ':').any (fun dir => ctx.isFile (pathJoin dir bin))
      | none => false

/-- Walk a dotted path through a TOML value, one `get` per part. -/
def tomlGetPath : Toml → List String → Bool
  | _, [] => true
  | t, p :: rest =>
    match t.get p with
    | none => false
    | some next => tomlGetPath next rest

/-- Model of `has_config_key`: read and parse the companion configuration
file (abstracted into `ctx.configToml`; the `workspaceDir` argument fixes
which file is read) and resolve the dotted key path against it. -/
def has_config_key (ctx : SysCtx) (workspaceDir : String) (key : String) : Bool :=
  match ctx.configToml with
  | none => false
  | some v => tomlGetPath v (splitOnChar key '.')

/-- The effective value of a required environment variable inside
`evaluate_skill_eligibility`: the override map first, else the real process
environment. -/
def effectiveEnvValue (ctx : SysCtx) (envOverride : Option (List (String × String)))
    (envName : String) : Option String :=
  match envOverride with
  | some envs =>
    match lookupKV envs envName with
    | some v => some v
    | none => ctx.realEnv envName
  | none => ctx.realEnv envName

/-- Model of `evaluate_skill_eligibility`: absent gating metadata or the
`always` flag short-circuit to eligibility; otherwise reason strings are
accumulated for the OS mismatch, each unresolvable required binary, an
unsatisfied any-of binary group, each absent or blank required environment
variable, and each unresolvable required configuration key. -/
def evaluate_skill_eligibility (ctx : SysCtx) (openclaw : Option SkillOpenClawMetadata)
    (workspaceDir : String) (pathOverride : Option String)
    (envOverride : Option (List (String × String))) : Bool × List String :=
  match openclaw with
  | none => (true, [])
  | some gating =>
    if gating.always then (true, [])
    else
      let osReasons : List String :=
        match gating.os with
        | some requiredOs =>
          if requiredOs ≠ ctx.curOs then [osReason requiredOs ctx.curOs] else []
        | none => []
      let binReasons : List String :=
        gating.requires.bins.filterMap (fun bin =>
          if find_binary_in_path ctx bin pathOverride then none
          else some (missingBinReason bin))
      let anyBinReasons : List String :=
        if !gating.requires.anyBins.isEmpty
            && !gating.requires.anyBins.any (fun bin => find_binary_in_path ctx bin pathOverride)
          then [anyBinsReason gating.requires.anyBins] else []
      let envReasons : List String :=
        gating.requires.env.filterMap (fun envName =>
          let present :=
            match effectiveEnvValue ctx envOverride envName with
            | some v => !(strTrim v = "" : Bool)
            | none => false
          if present then none else some (missingEnvReason envName))
      let configReasons : List String :=
        gating.requires.config.filterMap (fun key =>
          if has_config_key ctx workspaceDir key then none
          else some (configReason key))
      let reasons := osReasons ++ binReasons ++ anyBinReasons ++ envReasons ++ configReasons
      (reasons.isEmpty, reasons)

/-! ## Configuration overlay resolver (is_skill_enabled and skill_requirements_met) -/

/-- Model of `skill_requirements_met`: every declared required environment
variable is set in the real environment, or is a key of the overlay entry
explicit environment map, or is the primary environment variable while the
entry supplies an API key. -/
def skill_requirements_met (ctx : SysCtx) (skill : Skill)
    (entry : Option SkillEntryConfig) : Bool :=
  skill.requiresEnv.all (fun requiredKey =>
    (ctx.realEnv requiredKey).isSome
      || (match entry with
          | none => false
          | some e =>
            (lookupKV e.env requiredKey).isSome
              || ((skill.primaryEnv = some requiredKey : Bool) && e.apiKey.isSome)))

/-- Model of `is_skill_enabled`: an explicit `false` flag disables
unconditionally; an explicit `true` flag or an absent flag (or entry) defer
to `skill_requirements_met`. -/
def is_skill_enabled (ctx : SysCtx) (skill : Skill)
    (entries : List (String × SkillEntryConfig)) : Bool :=
  let entry := lookupKV entries skill.skillKey
  let requiresOk := skill_requirements_met ctx skill entry
  match entry.bind (fun e => e.enabled) with
  | some false => false
  | some true => requiresOk
  | none => requiresOk

/-! ## Strict frontmatter parser (src/skills/skill_md.rs) -/

/-- The frontmatter of a strict manifest (`types::SkillFrontmatter`). -/
structure SkillFrontmatter where
  name : String
  description : String
  metadata : Option Json

/-- Collect the lines strictly before the first line whose trim is `---`;
`none` when no such end delimiter exists. -/
def takeUntilDelim : List String → Option (List String)
  | [] => none
  | l :: rest =>
    if strTrim l = "---" then some []
    else (takeUntilDelim rest).map (fun ls => l :: ls)

/-- The key-value entry of one frontmatter line, shared between the parser
loop and its characterization: blank and `#` lines yield nothing, every other
line splits at its first colon with both halves trimmed, and a line without a
colon yields nothing. -/
def fmEntryOfLine (line : String) : Option (String × String) :=
  let t := strTrim line
  if t = "" || strStartsWithChar t '#' then none
  else (splitOnceChar t ':').map (fun kv => (strTrim kv.1, strTrim kv.2))

/-- The effect of one frontmatter key-value entry on the
name/description/metadata accumulators: the three recognized keys overwrite
their slot, a metadata value failing to parse as a JSON object is the hard
error, anything else is ignored. -/
def processKeyValue (jp : String → Option Json) (k v : String)
    (acc : Option String × Option String × Option Json) :
    Except String (Option String × Option String × Option Json) :=
  if k = "name" then .ok (some v, acc.2.1, acc.2.2)
  else if k = "description" then .ok (acc.1, some v, acc.2.2)
  else if k = "metadata" then
    match jp v with
    | none => .error "metadata must be valid JSON object"
    | some parsed =>
      if parsed.isObject then .ok (acc.1, acc.2.1, some parsed)
      else .error "metadata must be a JSON object"
  else .ok acc

/-- The frontmatter key-value loop of `parse_skill_md_content`, threading the
`name`, `description` and `metadata` accumulators and failing hard on a
metadata value that is not a JSON object. JSON parsing itself is abstracted
into the `jp` parameter. -/
def processLines (jp : String → Option Json) :
    List String → Option String × Option String × Option Json →
    Except String (Option String × Option String × Option Json)
  | [], acc => .ok acc
  | line :: rest, acc =>
    match fmEntryOfLine line with
    | none => processLines jp rest acc
    | some kv =>
      match processKeyValue jp kv.1 kv.2 acc with
      | .error e => .error e
      | .ok acc2 => processLines jp rest acc2

/-- Model of the `filter(|value| !value.is_empty()).ok_or_else(..)` step on a
required frontmatter key: an absent or empty value is the hard error. -/
def requireKey (msgKey : String) : Option String → Except String String
  | none => .error ("missing required frontmatter key: " ++ msgKey)
  | some v =>
    if v = "" then .error ("missing required frontmatter key: " ++ msgKey) else .ok v

/-- Model of `parse_skill_md_content`: require the start delimiter on the
first line and an end delimiter line, run the key-value loop, then demand
non-empty `name` and `description` values. -/
def parse_skill_md_content (jp : String → Option Json) (content : String) :
    Except String SkillFrontmatter :=
  match rustLines content with
  | [] => .error "missing frontmatter start delimiter"
  | firstLine :: rest =>
    if !(strTrim firstLine = "---" : Bool) then .error "missing frontmatter start delimiter"
    else
      match takeUntilDelim rest with
      | none => .error "missing frontmatter end delimiter"
      | some fmLines =>
        match processLines jp fmLines (none, none, none) with
        | .error e => .error e
        | .ok (n, d, m) =>
          match requireKey "name" n with
          | .error e => .error e
          | .ok nv =>
            match requireKey "description" d with
            | .error e => .error e
            | .ok dv => .ok { name := nv, description := dv, metadata := m }

/-! Specification-side characterization of the strict parser, stated over the
flat list of frontmatter key-value entries rather than the accumulator loop. -/

/-- The frontmatter block of a document: the lines between the leading `---`
line and the next `---` line, or `none` when either delimiter is missing. -/
def fmBlock (content : String) : Option (List String) :=
  match rustLines content with
  | [] => none
  | firstLine :: rest =>
    if strTrim firstLine = "---" then takeUntilDelim rest else none

/-- The key-value entries of the frontmatter lines. -/
def fmEntries (ls : List String) : List (String × String) :=
  ls.filterMap fmEntryOfLine

/-- Resolve a required key: the final recorded value of the key through `g`,
or the base accumulator when the key never occurred. -/
def resolveKey {β : Type} (g : String → β) (b : β) : Option String → β
  | some w => g w
  | none => b

/-- Last-occurrence lookup: the value of the final entry carrying `key`. -/
def lastVal : List (String × String) → String → Option String
  | [], _ => none
  | kv :: rest, k =>
    match lastVal rest k with
    | some v => some v
    | none => if kv.1 = k then some kv.2 else none

/-- Some `metadata` entry fails to parse as a JSON object. -/
def badMetadata (jp : String → Option Json) (entries : List (String × String)) : Bool :=
  entries.any (fun kv =>
    (kv.1 = "metadata" : Bool)
      && (match jp kv.2 with
          | none => true
          | some parsed => !parsed.isObject))

/-- The required `key` is missing or its final value is empty. -/
def missingKeyVal (entries : List (String × String)) (key : String) : Bool :=
  match lastVal entries key with
  | none => true
  | some v => (v = "" : Bool)

/-! ## Manifest loaders (load_skill_toml, load_skill_md, load_skills_from_directory) -/

/-- Model of `extract_description`: the first line that is not a heading and
not blank, else the literal placeholder, trimmed. -/
def extract_description (content : String) : String :=
  strTrim
    (((rustLines content).find? (fun line =>
        !strStartsWithChar line '#' && !(strTrim line = "" : Bool))).getD "No description")

/-- Model of the `Ok(Skill { .. })` construction of `load_skill_toml`, given
the TOML-parsed manifest (the file read and `toml::from_str` are abstracted
into the caller). Eligibility is evaluated with no overrides. -/
def load_skill_toml (ctx : SysCtx) (workspaceDir : String) (manifest : SkillManifest) : Skill :=
  let openclaw :=
    match manifest.metadata.openclaw with
    | some o => some o
    | none => manifest.skill.metadata.openclaw
  let result := evaluate_skill_eligibility ctx openclaw workspaceDir none none
  { skillKey :=
      ((manifest.skill.metadata.openclaw.bind (fun o => o.skillKey)).getD manifest.skill.name)
    primaryEnv := manifest.skill.metadata.openclaw.bind (fun o => o.primaryEnv)
    requiresEnv := manifest.skill.requirements.env
    name := manifest.skill.name
    description := manifest.skill.description
    version := manifest.skill.version
    author := manifest.skill.author
    tags := manifest.skill.tags
    tools := manifest.tools
    prompts := manifest.prompts
    eligible := result.1
    ineligibleReasons := result.2 }

/-- Model of `load_skill_md`, given the file content and the containing
directory name: name and key from the directory, description from the first
meaningful line, the whole content as a single prompt. -/
def load_skill_md (content : String) (dirName : String) : Skill :=
  { skillKey := dirName
    primaryEnv := none
    requiresEnv := []
    name := dirName
    description := extract_description content
    version := "0.1.0"
    author := none
    tags := []
    tools := []
    prompts := [content]
    eligible := true
    ineligibleReasons := [] }

/-- One entry of the skills directory as bulk discovery observes it.
`tomlManifest = none` means no `SKILL.toml` file; `some none` a `SKILL.toml`
whose read or TOML parse fails; `some (some m)` a manifest parsing to `m`.
`mdFile` is the same for `SKILL.md` and its raw content. -/
structure DirEntry where
  isDir : Bool
  tomlManifest : Option (Option SkillManifest)
  mdFile : Option (Option String)
  dirName : String

/-- Model of the body of the `load_skills_from_directory` loop: files are
skipped, `SKILL.toml` is consulted first and used exclusively when present,
`SKILL.md` only otherwise, and a failing load contributes nothing. -/
def selectSkill (ctx : SysCtx) (workspaceDir : String) (e : DirEntry) : Option Skill :=
  if !e.isDir then none
  else
    match e.tomlManifest with
    | some (some m) => some (load_skill_toml ctx workspaceDir m)
    | some none => none
    | none =>
      match e.mdFile with
      | some (some content) => some (load_skill_md content e.dirName)
      | some none => none
      | none => none

/-- Model of `load_skills_from_directory`: `none` stands for a missing skills
directory or a failing directory read (both return the empty list); otherwise
the entries are folded, pushing each successfully loaded skill. -/
def pushSelected {α β : Type} (f : α → Option β) (acc : List β) (e : α) : List β :=
  match f e with
  | some s => acc ++ [s]
  | none => acc

def load_skills_from_directory (ctx : SysCtx) (workspaceDir : String)
    (dir : Option (List DirEntry)) : List Skill :=
  match dir with
  | none => []
  | some entries => entries.foldl (pushSelected (selectSkill ctx workspaceDir)) []

/-! ## Strict bulk scan (src/skills/scan.rs) -/

/-- A parsed skill of the strict scan (`types::ParsedSkill`). -/
structure ParsedSkill where
  frontmatter : SkillFrontmatter
  skillDir : String
  skillMdPath : String
  eligible : Bool
  reason : String

/-- Model of `Path::parent` on the discovered manifest paths: drop the last
path component, the empty path when there is none. -/
def parentDir (p : String) : String :=
  match (splitOnChar p '/').dropLast with
  | [] => ""
  | comps => strJoin "/" comps

/-- Model of the parse loop of `scan_skills`, applied to the sorted list of
discovered `SKILL.md` paths with their contents (the recursive directory walk
and the file reads are abstracted into this list): every file must parse, the
first failure aborts the whole call. -/
def scan_skills_parse (jp : String → Option Json) :
    List (String × String) → Except String (List ParsedSkill)
  | [] => .ok []
  | (path, content) :: rest =>
    match parse_skill_md_content jp content with
    | .error e => .error e
    | .ok fm =>
      match scan_skills_parse jp rest with
      | .error e => .error e
      | .ok tail =>
        .ok ({ frontmatter := fm, skillDir := parentDir path, skillMdPath := path,
               eligible := true, reason := "" } :: tail)

/-! ## Skill removal command (the Remove arm of handle_command) -/

/-- The filesystem operations the removal command performs, abstracted:
canonicalization (`none` is the error case) and existence. -/
structure FsCtx where
  canonicalize : String → Option String
  pathExists : String → Bool

/-- Model of `skills_dir`. -/
def skills_dir (workspaceDir : String) : String := workspaceDir ++ "/skills"

/-- The path-traversal screen of the removal command: the name contains
`..`, a slash, or a backslash. -/
def badSkillName (name : String) : Bool :=
  strContainsSub name ".." || strContainsChar name '/' || strContainsChar name backslashChar

/-- Component-wise path prefix test, modelling `Path::starts_with`. -/
def pathStartsWith (p root : String) : Bool :=
  listIsPrefixStr (splitOnChar root '/') (splitOnChar p '/')
where
  listIsPrefixStr : List String → List String → Bool
    | [], _ => true
    | _ :: _, [] => false
    | a :: as, b :: bs => (a = b : Bool) && listIsPrefixStr as bs

/-- Model of the `SkillCommands::Remove` arm of `handle_command`: reject bad
names before any resolution, then reject a canonicalized target that does not
stay inside the canonical skills root, then require existence; only the `ok`
result stands for the actual `remove_dir_all` mutation, carrying the path it
would remove. -/
def remove_skill_command (fs : FsCtx) (workspaceDir name : String) : Except String String :=
  if badSkillName name then .error ("Invalid skill name: " ++ name)
  else
    let skillPath := skills_dir workspaceDir ++ "/" ++ name
    let canonicalSkills := (fs.canonicalize (skills_dir workspaceDir)).getD (skills_dir workspaceDir)
    match fs.canonicalize skillPath with
    | some canonicalSkill =>
      if !pathStartsWith canonicalSkill canonicalSkills then
        .error ("Skill path escapes skills directory: " ++ name)
      else if !fs.pathExists skillPath then .error ("Skill not found: " ++ name)
      else .ok skillPath
    | none =>
      if !fs.pathExists skillPath then .error ("Skill not found: " ++ name)
      else .ok skillPath

/-! ## Invariant of the environment scope guard -/

/-- The running invariant of a guard against the environment `env0` seen at
its construction: no name is captured twice, every captured value is the
original value of its name, and every uncaptured name still has its original
value in the current environment `e`. -/
def GuardInv (env0 : EnvState) (g : SkillEnvGuard) (e : EnvState) : Prop :=
  (g.saved.map Prod.fst).Nodup
  ∧ (∀ k cap, lookupKV g.saved k = some cap → cap = envVar env0 k)
  ∧ (∀ k, lookupKV g.saved k = none → envVar e k = envVar env0 k)

/-! ## Concrete instances used by witnesses and counterexamples -/

def ctxW : SysCtx := ⟨fun _ => none, fun _ => false, none, .linux⟩

def ctxBlankW : SysCtx :=
  ⟨fun n => if n = "BLANK_VAR" then some " " else none, fun _ => false, none, .linux⟩

def cfgTomlW : Toml := .table [("skills", .table [("experimental", .value)])]

def cfgCtxW : SysCtx := ⟨fun _ => none, fun _ => false, some cfgTomlW, .linux⟩

def failRequiresW : SkillRequires :=
  ⟨["missing-bin"], ["missing-a", "missing-b"], ["MISSING_ENV"], ["providers.openai.api_key"]⟩

def alwaysGatingW : SkillOpenClawMetadata := ⟨true, some .darwin, failRequiresW, none, none⟩

def cfgGatingW : SkillOpenClawMetadata :=
  ⟨false, none, ⟨[], [], [], ["skills.experimental"]⟩, none, none⟩

def cfgGatingMissW : SkillOpenClawMetadata :=
  ⟨false, none, ⟨[], [], [], ["providers.openai.api_key"]⟩, none, none⟩

def blankGatingW : SkillOpenClawMetadata :=
  ⟨false, none, ⟨[], [], ["BLANK_VAR"], []⟩, none, none⟩

def skillW : Skill :=
  ⟨"sample", "A sample skill", "0.1.0", none, [], [], [], true, [], "sample",
    some "SAMPLE_API_KEY", ["SAMPLE_API_KEY"]⟩

def blankSkillW : Skill :=
  ⟨"blank", "Requires a blank variable", "0.1.0", none, [], [], [], true, [], "blank",
    none, ["BLANK_VAR"]⟩

def entryW : SkillEntryConfig := ⟨none, some "secret-key", [], []⟩

def entryDisabledW : SkillEntryConfig := ⟨some false, none, [], []⟩

def jpW : String → Option Json := fun s =>
  if s = "{}" then some (.obj []) else if s = "[]" then some (.arr []) else none

def manifestW : SkillManifest :=
  ⟨⟨"from-toml", "TOML wins", "1.0.0", none, [], ⟨none⟩, ⟨[], [], [], []⟩⟩, [], [], ⟨none⟩⟩

def dualDirW : DirEntry := ⟨true, some (some manifestW), some (some "# From MD\nMD description\n"), "dual"⟩

def brokenTomlW : DirEntry := ⟨true, some none, none, "broken"⟩

def mdOnlyW : DirEntry := ⟨true, none, some (some "# Heading\nAn md skill.\n"), "md-skill"⟩

def fsCtxW : FsCtx :=
  ⟨fun p => if p = "ws/skills" then some "/root/ws/skills" else some "/elsewhere/target",
    fun _ => true⟩

/-! # Theorems

General lemmas about the embedded operations first, then one theorem per
specification claim, each with its witness or counterexample. -/

theorem lookupKV_eq_none_iff {α : Type} (l : List (String × α)) (k : String) :
    lookupKV l k = none ↔ k ∉ l.map Prod.fst := by
  induction l with
  | nil => simp [lookupKV]
  | cons kv rest ih =>
    simp only [lookupKV, List.map_cons, List.mem_cons]
    by_cases h : kv.1 = k
    · simp [h]
    · rw [if_neg h, ih]
      constructor
      · intro hnot hmem
        rcases hmem with hmem | hmem
        · exact h hmem.symm
        · exact hnot hmem
      · intro hnot hmem
        exact hnot (Or.inr hmem)

theorem lookupKV_isSome_of_mem {α : Type} {l : List (String × α)} {kv : String × α}
    (h : kv ∈ l) : (lookupKV l kv.1).isSome = true := by
  induction l with
  | nil => cases h
  | cons hd rest ih =>
    rcases List.mem_cons.mp h with h | h
    · subst h
      simp [lookupKV]
    · by_cases he : hd.1 = kv.1
      · simp [lookupKV, he]
      · simpa [lookupKV, he] using ih h

theorem lookupKV_append {α : Type} (a b : List (String × α)) (k : String) :
    lookupKV (a ++ b) k
      = match lookupKV a k with
        | some v => some v
        | none => lookupKV b k := by
  induction a with
  | nil => simp [lookupKV]
  | cons kv rest ih =>
    by_cases h : kv.1 = k <;> simp [lookupKV, h, ih]

theorem anyKey_eq_false_iff {α : Type} (l : List (String × α)) (k : String) :
    (l.any (fun kv => (kv.1 = k : Bool))) = false ↔ lookupKV l k = none := by
  induction l with
  | nil => simp [lookupKV]
  | cons kv rest ih =>
    by_cases h : kv.1 = k <;> simp [lookupKV, h, ih]

/-- C2: for every gating metadata whose always flag is true,
`evaluate_skill_eligibility` returns eligible with an empty reason list,
whatever the system context, workspace directory, path override and
environment override are — in particular even when every other
sub-requirement would fail. -/
theorem always_flag_short_circuits (ctx : SysCtx) (gating : SkillOpenClawMetadata)
    (workspaceDir : String) (pathOverride : Option String)
    (envOverride : Option (List (String × String)))
    (h : gating.always = true) :
    evaluate_skill_eligibility ctx (some gating) workspaceDir pathOverride envOverride
      = (true, []) := by
  simp [evaluate_skill_eligibility, h]

/-- Witness for C2: a gating block demanding the wrong OS, a missing binary,
missing any-of binaries, a missing environment variable and an unresolvable
configuration key in a context where all of these fail, yet with the always
flag set the evaluation is eligible with no reasons. -/
theorem always_flag_short_circuits_witness :
    evaluate_skill_eligibility ctxW (some alwaysGatingW) "ws" none none = (true, []) :=
  always_flag_short_circuits ctxW alwaysGatingW "ws" none none rfl

/-- C3: `is_skill_enabled` is false whenever the overlay entry of the skill
carries an explicit false enabled flag, and otherwise it is true exactly when
every required environment variable is set in the real environment, or is a
key of the entry explicit environment map, or equals the primary environment
variable while the entry supplies an API key. -/
theorem is_skill_enabled_spec (ctx : SysCtx) (skill : Skill)
    (entries : List (String × SkillEntryConfig)) :
    ((lookupKV entries skill.skillKey).bind (fun e => e.enabled) = some false →
      is_skill_enabled ctx skill entries = false)
    ∧ ((lookupKV entries skill.skillKey).bind (fun e => e.enabled) ≠ some false →
      (is_skill_enabled ctx skill entries = true ↔
        ∀ requiredKey ∈ skill.requiresEnv,
          (ctx.realEnv requiredKey).isSome = true
          ∨ ∃ e, lookupKV entries skill.skillKey = some e
              ∧ ((lookupKV e.env requiredKey).isSome = true
                 ∨ (skill.primaryEnv = some requiredKey ∧ e.apiKey.isSome = true)))) := by
  constructor
  · intro h
    simp [is_skill_enabled, h]
  · intro h
    have hreq : skill_requirements_met ctx skill (lookupKV entries skill.skillKey) = true ↔
        ∀ requiredKey ∈ skill.requiresEnv,
          (ctx.realEnv requiredKey).isSome = true
          ∨ ∃ e, lookupKV entries skill.skillKey = some e
              ∧ ((lookupKV e.env requiredKey).isSome = true
                 ∨ (skill.primaryEnv = some requiredKey ∧ e.apiKey.isSome = true)) := by
      cases he : lookupKV entries skill.skillKey with
      | none => simp [skill_requirements_met, List.all_eq_true]
      | some e => simp [skill_requirements_met, List.all_eq_true]
    cases he : (lookupKV entries skill.skillKey).bind (fun e => e.enabled) with
    | none =>
      rw [← hreq]
      simp [is_skill_enabled, he]
    | some b =>
      cases b with
      | false => exact absurd he h
      | true =>
        rw [← hreq]
        simp [is_skill_enabled, he]

/-- Witness for C3: a disabled entry forces false even though the single
requirement of the skill is satisfiable through the API key; with the
explicit flag absent the same skill is enabled. -/
theorem is_skill_enabled_spec_witness :
    is_skill_enabled ctxW skillW [("sample", entryDisabledW)] = false :=
  (is_skill_enabled_spec ctxW skillW [("sample", entryDisabledW)]).1 rfl

/-- C10: a required environment variable whose process-environment value is
blank satisfies `skill_requirements_met` (the variable merely has to be set)
while `evaluate_skill_eligibility` reports it missing (it demands a
non-whitespace value): the two eligibility subsystems disagree. -/
theorem blank_env_value_disagreement (ctx : SysCtx) (workspaceDir envName v : String)
    (skill : Skill) (gating : SkillOpenClawMetadata) (entry : Option SkillEntryConfig)
    (hreq : skill.requiresEnv = [envName])
    (hgat : gating = ⟨false, none, ⟨[], [], [envName], []⟩, none, none⟩)
    (hset : ctx.realEnv envName = some v) (hblank : strTrim v = "") :
    skill_requirements_met ctx skill entry = true
    ∧ evaluate_skill_eligibility ctx (some gating) workspaceDir none none
        = (false, [missingEnvReason envName]) := by
  constructor
  · simp [skill_requirements_met, hreq, hset]
  · subst hgat
    simp [evaluate_skill_eligibility, effectiveEnvValue, hset, hblank]

/-- Witness for C10: the variable BLANK_VAR is set to a single space; the
overlay-side requirement check accepts it while the gating-side evaluation
reports it missing. -/
theorem blank_env_value_disagreement_witness :
    skill_requirements_met ctxBlankW blankSkillW none = true
    ∧ evaluate_skill_eligibility ctxBlankW (some blankGatingW) "ws" none none
        = (false, [missingEnvReason "BLANK_VAR"]) :=
  blank_env_value_disagreement ctxBlankW "ws" "BLANK_VAR" " " blankSkillW blankGatingW none
    rfl rfl rfl rfl

/-- C4 counterexample: gating metadata with always = false and the non-empty
required configuration-key list ["skills.experimental"], evaluated in a
context whose companion configuration file parses and contains that key,
yields eligibility with no reasons at all — the configuration-key check does
not always fail, contradicting the claim that a reason is emitted for every
listed key regardless of the file contents. -/
theorem config_key_check_can_succeed :
    evaluate_skill_eligibility cfgCtxW (some cfgGatingW) "ws" none none = (true, []) := by
  decide

/-- C4 amended: with always = false the reason list of
`evaluate_skill_eligibility` ends with exactly the unsupported-config reasons
of those listed keys whose dotted path does not resolve against the parsed
companion configuration file; in particular when that file is missing or does
not parse, every listed key yields its reason. -/
theorem config_reasons_characterized (ctx : SysCtx) (gating : SkillOpenClawMetadata)
    (workspaceDir : String) (pathOverride : Option String)
    (envOverride : Option (List (String × String)))
    (h : gating.always = false) :
    (∃ pre, (evaluate_skill_eligibility ctx (some gating) workspaceDir pathOverride envOverride).2
        = pre ++ gating.requires.config.filterMap (fun key =>
            if has_config_key ctx workspaceDir key then none else some (configReason key)))
    ∧ (ctx.configToml = none →
        ∀ key ∈ gating.requires.config,
          configReason key
            ∈ (evaluate_skill_eligibility ctx (some gating) workspaceDir pathOverride envOverride).2) := by
  have hmain : ∃ pre,
      (evaluate_skill_eligibility ctx (some gating) workspaceDir pathOverride envOverride).2
        = pre ++ gating.requires.config.filterMap (fun key =>
            if has_config_key ctx workspaceDir key then none else some (configReason key)) := by
    unfold evaluate_skill_eligibility
    simp only [h]
    exact ⟨_, rfl⟩
  refine ⟨hmain, ?_⟩
  intro hnone key hkey
  obtain ⟨pre, hpre⟩ := hmain
  rw [hpre]
  refine List.mem_append_right _ (List.mem_filterMap.mpr ⟨key, hkey, ?_⟩)
  simp [has_config_key, hnone]

/-- Witness for the amended C4: with no parsable companion configuration
file, the required key yields its unsupported-config reason. -/
theorem config_reasons_characterized_witness :
    configReason "providers.openai.api_key"
      ∈ (evaluate_skill_eligibility ctxW (some cfgGatingMissW) "ws" none none).2 :=
  (config_reasons_characterized ctxW cfgGatingMissW "ws" none none rfl).2 rfl
    "providers.openai.api_key" (by simp [cfgGatingMissW])

theorem foldl_pushSome {α β : Type} (f : α → Option β) (l : List α) (acc : List β) :
    l.foldl (pushSelected f) acc = acc ++ l.filterMap f := by
  induction l generalizing acc with
  | nil => simp
  | cons e rest ih =>
    cases hf : f e <;> simp [pushSelected, hf, ih, List.filterMap_cons]

/-- C6: bulk discovery is total (it returns a list, never an error) and its
result is exactly the per-directory successful loads: a subdirectory whose
structured manifest fails to read or parse contributes nothing while every
other directory is still processed — splicing such a broken directory into
any position of the scan leaves the result of the surrounding directories
unchanged. -/
theorem load_skills_from_directory_lenient (ctx : SysCtx) (workspaceDir : String)
    (entries : List DirEntry) :
    load_skills_from_directory ctx workspaceDir (some entries)
      = entries.filterMap (selectSkill ctx workspaceDir)
    ∧ (∀ pre post bad, bad.isDir = true → bad.tomlManifest = some none →
        load_skills_from_directory ctx workspaceDir (some (pre ++ bad :: post))
          = load_skills_from_directory ctx workspaceDir (some pre)
            ++ load_skills_from_directory ctx workspaceDir (some post)) := by
  have hmain : ∀ l : List DirEntry,
      load_skills_from_directory ctx workspaceDir (some l)
        = l.filterMap (selectSkill ctx workspaceDir) := by
    intro l
    show l.foldl (pushSelected (selectSkill ctx workspaceDir)) []
      = l.filterMap (selectSkill ctx workspaceDir)
    simpa using foldl_pushSome (selectSkill ctx workspaceDir) l []
  refine ⟨hmain entries, ?_⟩
  intro pre post bad hdir htoml
  have hbad : selectSkill ctx workspaceDir bad = none := by
    simp [selectSkill, hdir, htoml]
  rw [hmain, hmain, hmain, List.filterMap_append, List.filterMap_cons, hbad]

/-- Witness for C6: a directory whose SKILL.toml fails to parse sits between
a valid structured skill and a valid simple skill; the scan still yields both
neighbours and nothing for the broken directory. -/
theorem load_skills_from_directory_lenient_witness :
    load_skills_from_directory ctxW "ws" (some [dualDirW, brokenTomlW, mdOnlyW])
      = load_skills_from_directory ctxW "ws" (some [dualDirW])
        ++ load_skills_from_directory ctxW "ws" (some [mdOnlyW]) :=
  (load_skills_from_directory_lenient ctxW "ws" []).2 [dualDirW] [mdOnlyW] brokenTomlW rfl rfl

/-- C7: for a skill directory carrying both manifests, bulk discovery yields
exactly one skill, built from the structured manifest (name and description
are the manifest fields), and the simple-markdown file is never consulted:
the result is invariant under every possible SKILL.md content. -/
theorem structured_manifest_wins (ctx : SysCtx) (workspaceDir : String)
    (e : DirEntry) (m : SkillManifest)
    (hd : e.isDir = true) (ht : e.tomlManifest = some (some m)) :
    load_skills_from_directory ctx workspaceDir (some [e])
      = [load_skill_toml ctx workspaceDir m]
    ∧ (load_skill_toml ctx workspaceDir m).name = m.skill.name
    ∧ (load_skill_toml ctx workspaceDir m).description = m.skill.description
    ∧ ∀ md, load_skills_from_directory ctx workspaceDir (some [{ e with mdFile := md }])
        = load_skills_from_directory ctx workspaceDir (some [e]) := by
  refine ⟨?_, rfl, rfl, ?_⟩
  · simp [load_skills_from_directory, pushSelected, selectSkill, hd, ht]
  · intro md
    simp [load_skills_from_directory, pushSelected, selectSkill, hd, ht]

/-- Witness for C7: a directory with both a structured manifest and a
markdown manifest yields the one structured skill, whatever the markdown
says. -/
theorem structured_manifest_wins_witness :
    load_skills_from_directory ctxW "ws" (some [dualDirW])
      = [load_skill_toml ctxW "ws" manifestW]
    ∧ (load_skill_toml ctxW "ws" manifestW).name = "from-toml"
    ∧ (load_skill_toml ctxW "ws" manifestW).description = "TOML wins"
    ∧ load_skills_from_directory ctxW "ws" (some [{ dualDirW with mdFile := none }])
        = load_skills_from_directory ctxW "ws" (some [dualDirW]) := by
  obtain ⟨h1, h2, h3, h4⟩ := structured_manifest_wins ctxW "ws" dualDirW manifestW rfl rfl
  exact ⟨h1, h2, h3, h4 none⟩

/-- C8: the removal command rejects, independently of the filesystem and so
before any path resolution, every skill name containing a traversal or
separator character; and when the joined path canonicalizes outside the
canonical skills root it also rejects. In both cases the result is the
rejection error, never the removal action. -/
theorem remove_skill_command_rejects (fs : FsCtx) (workspaceDir name : String) :
    (badSkillName name = true →
      ∀ fs2 : FsCtx, remove_skill_command fs2 workspaceDir name
        = .error ("Invalid skill name: " ++ name))
    ∧ (badSkillName name = false →
      ∀ c, fs.canonicalize (skills_dir workspaceDir ++ "/" ++ name) = some c →
        pathStartsWith c
            ((fs.canonicalize (skills_dir workspaceDir)).getD (skills_dir workspaceDir)) = false →
        remove_skill_command fs workspaceDir name
          = .error ("Skill path escapes skills directory: " ++ name)) := by
  constructor
  · intro h fs2
    simp [remove_skill_command, h]
  · intro h c hcanon hout
    simp [remove_skill_command, h, hcanon, hout]

/-- Witness for C8: the traversal name `../victim` is rejected by a
filesystem that would happily canonicalize it, and the clean name `escapee`
is rejected when its canonical path resolves outside the canonical skills
root; neither run reaches the removal action. -/
theorem remove_skill_command_rejects_witness :
    remove_skill_command fsCtxW "ws" "../victim" = .error ("Invalid skill name: " ++ "../victim")
    ∧ remove_skill_command fsCtxW "ws" "escapee"
        = .error ("Skill path escapes skills directory: " ++ "escapee") :=
  ⟨(remove_skill_command_rejects fsCtxW "ws" "../victim").1 (by decide) fsCtxW,
   (remove_skill_command_rejects fsCtxW "ws" "escapee").2 (by decide)
     "/elsewhere/target" rfl (by decide)⟩

/-- C9: the scan applies the strict frontmatter parser to every discovered
SKILL.md file and succeeds exactly when every one of them parses; a single
failing file makes the whole call an error carrying no skills at all, even
when every other manifest is well-formed — unlike lenient bulk discovery
there is no partial result. On success every file contributes one skill. -/
theorem scan_skills_strict (jp : String → Option Json) (files : List (String × String)) :
    ((scan_skills_parse jp files).isOk = true ↔
      ∀ pc ∈ files, (parse_skill_md_content jp pc.2).isOk = true)
    ∧ (∀ l, scan_skills_parse jp files = .ok l → l.length = files.length) := by
  induction files with
  | nil =>
    constructor
    · simp [scan_skills_parse, Except.isOk, Except.toBool]
    · intro l hl
      simp [scan_skills_parse] at hl
      simp [← hl]
  | cons pc rest ih =>
    obtain ⟨p, c⟩ := pc
    cases hp : parse_skill_md_content jp c with
    | error e =>
      constructor
      · constructor
        · intro habs
          simp [scan_skills_parse, hp, Except.bind, Except.isOk, Except.toBool] at habs
        · intro hall
          have := hall (p, c) (List.mem_cons_self _ _)
          simp [hp, Except.isOk, Except.toBool] at this
      · intro l hl
        simp [scan_skills_parse, hp, Except.bind] at hl
    | ok fm =>
      cases hr : scan_skills_parse jp rest with
      | error e =>
        have hnotall : ¬ ∀ pc ∈ rest, (parse_skill_md_content jp pc.2).isOk = true := by
          intro hall
          have := ih.1.mpr hall
          simp [hr, Except.isOk, Except.toBool] at this
        constructor
        · constructor
          · intro habs
            simp [scan_skills_parse, hp, hr, Except.bind, Except.isOk, Except.toBool] at habs
          · intro hall
            exact absurd (fun pc hpc => hall pc (List.mem_cons_of_mem _ hpc)) hnotall
        · intro l hl
          simp [scan_skills_parse, hp, hr, Except.bind] at hl
      | ok tail =>
        have hall : ∀ pc ∈ rest, (parse_skill_md_content jp pc.2).isOk = true :=
          ih.1.mp (by simp [hr, Except.isOk, Except.toBool])
        constructor
        · constructor
          · intro _ pc hpc
            rcases List.mem_cons.mp hpc with hpc | hpc
            · subst hpc
              simp [hp, Except.isOk, Except.toBool]
            · exact hall pc hpc
          · intro _
            simp [scan_skills_parse, hp, hr, Except.bind, Except.isOk, Except.toBool]
        · intro l hl
          simp [scan_skills_parse, hp, hr, Except.bind] at hl
          have hlen := ih.2 tail hr
          simp [← hl, hlen]

/-- The valid strict manifest used by the C9 witness. -/
def goodMdW : String := "---\nname: good\ndescription: fine\n---\nBody\n"

/-- Witness for C9: one malformed SKILL.md among well-formed ones makes the
whole scan fail. -/
theorem scan_skills_strict_witness :
    (scan_skills_parse jpW
      [("skills/good/SKILL.md", goodMdW), ("skills/bad/SKILL.md", "no frontmatter")]).isOk
      = false := by
  refine Bool.eq_false_iff.mpr (fun htrue => ?_)
  have hbad := (scan_skills_strict jpW
      [("skills/good/SKILL.md", goodMdW), ("skills/bad/SKILL.md", "no frontmatter")]).1.mp htrue
      ("skills/bad/SKILL.md", "no frontmatter") (by simp)
  exact absurd hbad (by decide)

theorem envVar_setVar (e : EnvState) (k v k2 : String) :
    envVar (setVar e k v) k2 = if k = k2 then some v else envVar e k2 := rfl

theorem lookupKV_append_some {α : Type} {a : List (String × α)} {k : String} {v : α}
    (b : List (String × α)) (h : lookupKV a k = some v) : lookupKV (a ++ b) k = some v := by
  rw [lookupKV_append, h]

theorem lookupKV_append_none {α : Type} {a : List (String × α)} {k : String}
    (b : List (String × α)) (h : lookupKV a k = none) : lookupKV (a ++ b) k = lookupKV b k := by
  rw [lookupKV_append, h]

theorem envVar_removeVar (e : EnvState) (k k2 : String) :
    envVar (removeVar e k) k2 = if k = k2 then none else envVar e k2 := by
  induction e with
  | nil => simp [envVar, removeVar, lookupKV]
  | cons kv rest ih =>
    show lookupKV ((kv :: rest).filter (fun kv => !(kv.1 = k : Bool))) k2 = _
    rw [List.filter_cons]
    by_cases h1 : kv.1 = k
    · rw [if_neg (by simp [h1])]
      show envVar (removeVar rest k) k2 = _
      rw [ih]
      by_cases hk : k = k2
      · rw [if_pos hk, if_pos hk]
      · rw [if_neg hk, if_neg hk]
        have h2 : ¬ kv.1 = k2 := fun he => hk (h1.symm.trans he)
        show _ = lookupKV (kv :: rest) k2
        rw [lookupKV, if_neg h2]
        rfl
    · rw [if_pos (by simp [h1])]
      show (if kv.1 = k2 then some kv.2 else lookupKV (rest.filter (fun kv => !(kv.1 = k : Bool))) k2) = _
      by_cases h2 : kv.1 = k2
      · have hk : ¬ k = k2 := fun he => h1 (h2.trans he.symm)
        rw [if_pos h2, if_neg hk]
        show _ = lookupKV (kv :: rest) k2
        rw [lookupKV, if_pos h2]
      · rw [if_neg h2]
        show envVar (removeVar rest k) k2 = _
        rw [ih]
        by_cases hk : k = k2
        · rw [if_pos hk, if_pos hk]
        · rw [if_neg hk, if_neg hk]
          show _ = lookupKV (kv :: rest) k2
          rw [lookupKV, if_neg h2]
          rfl

theorem guardInv_new (env0 : EnvState) : GuardInv env0 SkillEnvGuard.new env0 :=
  ⟨List.nodup_nil, fun k cap h => by simp [SkillEnvGuard.new, lookupKV] at h,
   fun _ _ => rfl⟩

theorem guardInv_capture_set {env0 : EnvState} {g : SkillEnvGuard} {e : EnvState}
    (h : GuardInv env0 g e) (k v : String) :
    GuardInv env0 (g.capture k e) (setVar e k v) := by
  obtain ⟨hnd, hcap, hunc⟩ := h
  unfold SkillEnvGuard.capture
  by_cases hin : g.saved.any (fun kv => (kv.1 = k : Bool)) = true
  · rw [if_pos hin]
    refine ⟨hnd, hcap, ?_⟩
    intro k2 h2
    have hk2 : ¬ k = k2 := by
      intro he
      subst he
      rcases List.any_eq_true.mp hin with ⟨kv, hmem, hkv⟩
      have hsome := lookupKV_isSome_of_mem hmem
      rw [of_decide_eq_true hkv] at hsome
      rw [h2] at hsome
      exact Bool.false_ne_true hsome
    rw [envVar_setVar, if_neg hk2]
    exact hunc k2 h2
  · rw [if_neg hin]
    have hnone : lookupKV g.saved k = none :=
      (anyKey_eq_false_iff _ _).mp (Bool.eq_false_iff.mpr hin)
    have hknotin : k ∉ g.saved.map Prod.fst := (lookupKV_eq_none_iff _ _).mp hnone
    refine ⟨?_, ?_, ?_⟩
    · show ((g.saved ++ [(k, envVar e k)]).map Prod.fst).Nodup
      rw [List.map_append]
      refine List.Nodup.append hnd (List.nodup_singleton _) ?_
      intro x hx hx2
      rw [show List.map Prod.fst [(k, envVar e k)] = [k] from rfl, List.mem_singleton] at hx2
      subst hx2
      exact hknotin hx
    · intro k2 cap h2
      replace h2 : lookupKV (g.saved ++ [(k, envVar e k)]) k2 = some cap := h2
      cases hl : lookupKV g.saved k2 with
      | some c =>
        rw [lookupKV_append_some _ hl] at h2
        exact hcap k2 cap (hl.trans h2)
      | none =>
        rw [lookupKV_append_none _ hl, lookupKV] at h2
        by_cases hk : k = k2
        · rw [if_pos hk] at h2
          subst hk
          rw [← Option.some_inj.mp h2]
          exact hunc k hnone
        · rw [if_neg hk] at h2
          exact absurd h2 (by simp [lookupKV])
    · intro k2 h2
      replace h2 : lookupKV (g.saved ++ [(k, envVar e k)]) k2 = none := h2
      cases hl : lookupKV g.saved k2 with
      | some c =>
        rw [lookupKV_append_some _ hl] at h2
        exact absurd h2 (by simp)
      | none =>
        rw [lookupKV_append_none _ hl, lookupKV] at h2
        by_cases hk : k = k2
        · rw [if_pos hk] at h2
          exact absurd h2 (by simp)
        · rw [envVar_setVar, if_neg hk]
          exact hunc k2 hl

theorem applyEnvStepForEntry_inv {env0 : EnvState} {st : SkillEnvGuard × EnvState}
    (h : GuardInv env0 st.1 st.2) (kv : String × String) :
    GuardInv env0 (applyEnvStepForEntry st kv).1 (applyEnvStepForEntry st kv).2 := by
  unfold applyEnvStepForEntry
  by_cases hc : (envVar st.2 kv.1).isNone = true
  · rw [if_pos hc]
    exact guardInv_capture_set h kv.1 kv.2
  · rw [if_neg hc]
    exact h

theorem foldl_preserves {α β : Type} (P : α → Prop) (f : α → β → α)
    (hf : ∀ a b, P a → P (f a b)) : ∀ (l : List β) (a : α), P a → P (l.foldl f a)
  | [], _, h => h
  | b :: l, a, h => foldl_preserves P f hf l (f a b) (hf a b h)

theorem applyPrimaryEnv_inv (entry : SkillEntryConfig) (primaryEnvOpt : Option String)
    {env0 : EnvState} {st1 : SkillEnvGuard × EnvState}
    (h : GuardInv env0 st1.1 st1.2) :
    GuardInv env0 (applyPrimaryEnv entry primaryEnvOpt st1).1
      (applyPrimaryEnv entry primaryEnvOpt st1).2 := by
  unfold applyPrimaryEnv
  cases primaryEnvOpt with
  | none => exact h
  | some pe =>
    cases hak : entry.apiKey with
    | none => exact h
    | some key =>
      show GuardInv env0
          (if (envVar st1.2 pe).isNone && (lookupKV entry.env pe).isNone then
              (st1.1.capture pe st1.2, setVar st1.2 pe key)
            else st1).1
          (if (envVar st1.2 pe).isNone && (lookupKV entry.env pe).isNone then
              (st1.1.capture pe st1.2, setVar st1.2 pe key)
            else st1).2
      split
      · exact guardInv_capture_set h pe key
      · exact h

theorem applyEnvForSkill_inv (entries : List (String × SkillEntryConfig))
    {env0 : EnvState} {st : SkillEnvGuard × EnvState}
    (h : GuardInv env0 st.1 st.2) (skill : Skill) :
    GuardInv env0 (applyEnvForSkill entries st skill).1 (applyEnvForSkill entries st skill).2 := by
  unfold applyEnvForSkill
  cases he : lookupKV entries skill.skillKey with
  | none => exact h
  | some entry =>
    exact applyPrimaryEnv_inv entry skill.primaryEnv
      (foldl_preserves (fun st => GuardInv env0 st.1 st.2) applyEnvStepForEntry
        (fun _ b ha => applyEnvStepForEntry_inv ha b) entry.env st h)

theorem apply_env_overrides_inv (skills : List Skill)
    (entries : List (String × SkillEntryConfig)) (env0 : EnvState) :
    GuardInv env0 (apply_env_overrides_for_run_with_entries skills entries env0).1
      (apply_env_overrides_for_run_with_entries skills entries env0).2 :=
  foldl_preserves (fun st => GuardInv env0 st.1 st.2) (applyEnvForSkill entries)
    (fun _ b ha => applyEnvForSkill_inv entries ha b) skills (SkillEnvGuard.new, env0)
    (guardInv_new env0)

theorem restoreList_spec (saved : List (String × Option String))
    (hnd : (saved.map Prod.fst).Nodup) (e : EnvState) (k : String) :
    envVar (restoreList saved e) k
      = match lookupKV saved k with
        | some cap => cap
        | none => envVar e k := by
  induction saved generalizing e with
  | nil => simp [restoreList, lookupKV]
  | cons hd rest ih =>
    obtain ⟨m, cap⟩ := hd
    have hnd2 := List.nodup_cons.mp (show (m :: rest.map Prod.fst).Nodup from hnd)
    have hm : m ∉ rest.map Prod.fst := hnd2.1
    have hrest : (rest.map Prod.fst).Nodup := hnd2.2
    by_cases hk : m = k
    · subst hk
      have hnone : lookupKV rest m = none := (lookupKV_eq_none_iff _ _).mpr hm
      cases cap with
      | some v =>
        show envVar (restoreList rest (setVar e m v)) m = _
        rw [ih hrest]
        simp [hnone, lookupKV, envVar_setVar]
      | none =>
        show envVar (restoreList rest (removeVar e m)) m = _
        rw [ih hrest]
        simp [hnone, lookupKV, envVar_removeVar]
    · cases cap with
      | some v =>
        show envVar (restoreList rest (setVar e m v)) k = _
        rw [ih hrest]
        cases hr : lookupKV rest k <;> simp [hr, lookupKV, hk, envVar_setVar]
      | none =>
        show envVar (restoreList rest (removeVar e m)) k = _
        rw [ih hrest]
        cases hr : lookupKV rest k <;> simp [hr, lookupKV, hk, envVar_removeVar]

theorem apply_env_overrides_restores (skills : List Skill)
    (entries : List (String × SkillEntryConfig)) (env0 : EnvState) (k : String) :
    envVar ((apply_env_overrides_for_run_with_entries skills entries env0).1.restore
      (apply_env_overrides_for_run_with_entries skills entries env0).2) k = envVar env0 k := by
  obtain ⟨hnd, hcap, hunc⟩ := apply_env_overrides_inv skills entries env0
  rw [SkillEnvGuard.restore, restoreList_spec _ hnd]
  cases hl : lookupKV (apply_env_overrides_for_run_with_entries skills entries env0).1.saved k with
  | some cap =>
    simp only [hl]
    exact hcap k cap hl
  | none =>
    simp only [hl]
    exact hunc k hl

theorem foldl_entry_env_envVar (pe : String) (l : List (String × String))
    (hl : ∀ kv ∈ l, ¬ kv.1 = pe) :
    ∀ st : SkillEnvGuard × EnvState,
      envVar (l.foldl applyEnvStepForEntry st).2 pe = envVar st.2 pe := by
  induction l with
  | nil => intro st; rfl
  | cons kv rest ih =>
    intro st
    rw [List.foldl_cons, ih (fun kv2 h2 => hl kv2 (List.mem_cons_of_mem _ h2))]
    unfold applyEnvStepForEntry
    split
    · show envVar (setVar st.2 kv.1 kv.2) pe = envVar st.2 pe
      rw [envVar_setVar, if_neg (hl kv (List.mem_cons_self _ _))]
    · rfl

/-- C1: the guard built by `apply_env_overrides_for_run_with_entries` never
captures the same name twice, captures exactly the original (pre-mutation)
value of every captured name, and its disposal restores every variable to its
original value — entirely, for every skill list, overlay map and starting
environment. In particular, for a skill declaring a primary environment
variable and an overlay entry carrying an API key not shadowed by the
explicit map: if the variable is unset beforehand it equals the API key
inside the scope and is absent again after disposal, and if it was already
set its pre-existing value is untouched both inside the scope and after
disposal. -/
theorem apply_env_overrides_guard_correct
    (skill : Skill) (entry : SkillEntryConfig) (pe apiKey : String)
    (hpe : skill.primaryEnv = some pe)
    (hak : entry.apiKey = some apiKey)
    (hnc : lookupKV entry.env pe = none) :
    (∀ (skills : List Skill) (entries : List (String × SkillEntryConfig)) (env0 : EnvState),
      ((apply_env_overrides_for_run_with_entries skills entries env0).1.saved.map Prod.fst).Nodup
      ∧ (∀ k cap,
          lookupKV (apply_env_overrides_for_run_with_entries skills entries env0).1.saved k
            = some cap → cap = envVar env0 k)
      ∧ (∀ k, envVar ((apply_env_overrides_for_run_with_entries skills entries env0).1.restore
            (apply_env_overrides_for_run_with_entries skills entries env0).2) k = envVar env0 k))
    ∧ (∀ env0 : EnvState, envVar env0 pe = none →
        envVar (apply_env_overrides_for_run_with_entries [skill]
            [(skill.skillKey, entry)] env0).2 pe = some apiKey
        ∧ envVar ((apply_env_overrides_for_run_with_entries [skill]
              [(skill.skillKey, entry)] env0).1.restore
            (apply_env_overrides_for_run_with_entries [skill]
              [(skill.skillKey, entry)] env0).2) pe = none)
    ∧ (∀ (env0 : EnvState) (w : String), envVar env0 pe = some w →
        envVar (apply_env_overrides_for_run_with_entries [skill]
            [(skill.skillKey, entry)] env0).2 pe = some w
        ∧ envVar ((apply_env_overrides_for_run_with_entries [skill]
              [(skill.skillKey, entry)] env0).1.restore
            (apply_env_overrides_for_run_with_entries [skill]
              [(skill.skillKey, entry)] env0).2) pe = some w) := by
  have hmemnc : ∀ kv ∈ entry.env, ¬ kv.1 = pe := by
    intro kv hkv hke
    exact (lookupKV_eq_none_iff _ _).mp hnc (hke ▸ List.mem_map_of_mem Prod.fst hkv)
  have hlk : lookupKV [(skill.skillKey, entry)] skill.skillKey = some entry := by
    simp [lookupKV]
  have happ : ∀ env0 : EnvState,
      apply_env_overrides_for_run_with_entries [skill] [(skill.skillKey, entry)] env0
        = applyPrimaryEnv entry skill.primaryEnv
            (entry.env.foldl applyEnvStepForEntry (SkillEnvGuard.new, env0)) := by
    intro env0
    show applyEnvForSkill [(skill.skillKey, entry)] (SkillEnvGuard.new, env0) skill = _
    unfold applyEnvForSkill
    rw [hlk]
  refine ⟨?_, ?_, ?_⟩
  · intro skills entries env0
    obtain ⟨hnd, hcap, hunc⟩ := apply_env_overrides_inv skills entries env0
    exact ⟨hnd, hcap, fun k => apply_env_overrides_restores skills entries env0 k⟩
  · intro env0 h0
    have hst1 : envVar (entry.env.foldl applyEnvStepForEntry (SkillEnvGuard.new, env0)).2 pe
        = none := by
      rw [foldl_entry_env_envVar pe entry.env hmemnc]
      exact h0
    have hcond :
        ((envVar (entry.env.foldl applyEnvStepForEntry (SkillEnvGuard.new, env0)).2 pe).isNone
          && (lookupKV entry.env pe).isNone) = true := by
      rw [hst1, hnc]
      rfl
    have hfin : apply_env_overrides_for_run_with_entries [skill] [(skill.skillKey, entry)] env0
        = ((entry.env.foldl applyEnvStepForEntry (SkillEnvGuard.new, env0)).1.capture pe
             (entry.env.foldl applyEnvStepForEntry (SkillEnvGuard.new, env0)).2,
           setVar (entry.env.foldl applyEnvStepForEntry (SkillEnvGuard.new, env0)).2 pe apiKey) := by
      rw [happ env0, hpe]
      unfold applyPrimaryEnv
      rw [hak]
      show (if (envVar (entry.env.foldl applyEnvStepForEntry (SkillEnvGuard.new, env0)).2 pe).isNone
            && (lookupKV entry.env pe).isNone then
          ((entry.env.foldl applyEnvStepForEntry (SkillEnvGuard.new, env0)).1.capture pe
             (entry.env.foldl applyEnvStepForEntry (SkillEnvGuard.new, env0)).2,
           setVar (entry.env.foldl applyEnvStepForEntry (SkillEnvGuard.new, env0)).2 pe apiKey)
        else entry.env.foldl applyEnvStepForEntry (SkillEnvGuard.new, env0)) = _
      rw [if_pos hcond]
    constructor
    · rw [hfin]
      show envVar (setVar (entry.env.foldl applyEnvStepForEntry (SkillEnvGuard.new, env0)).2
          pe apiKey) pe = some apiKey
      rw [envVar_setVar, if_pos rfl]
    · rw [(apply_env_overrides_restores [skill] [(skill.skillKey, entry)] env0 pe :)]
      exact h0
  · intro env0 w h0
    have hst1 : envVar (entry.env.foldl applyEnvStepForEntry (SkillEnvGuard.new, env0)).2 pe
        = some w := by
      rw [foldl_entry_env_envVar pe entry.env hmemnc]
      exact h0
    have hcondf :
        ((envVar (entry.env.foldl applyEnvStepForEntry (SkillEnvGuard.new, env0)).2 pe).isNone
          && (lookupKV entry.env pe).isNone) = false := by
      rw [hst1]
      rfl
    have hfin : apply_env_overrides_for_run_with_entries [skill] [(skill.skillKey, entry)] env0
        = entry.env.foldl applyEnvStepForEntry (SkillEnvGuard.new, env0) := by
      rw [happ env0, hpe]
      unfold applyPrimaryEnv
      rw [hak]
      show (if (envVar (entry.env.foldl applyEnvStepForEntry (SkillEnvGuard.new, env0)).2 pe).isNone
            && (lookupKV entry.env pe).isNone then
          ((entry.env.foldl applyEnvStepForEntry (SkillEnvGuard.new, env0)).1.capture pe
             (entry.env.foldl applyEnvStepForEntry (SkillEnvGuard.new, env0)).2,
           setVar (entry.env.foldl applyEnvStepForEntry (SkillEnvGuard.new, env0)).2 pe apiKey)
        else entry.env.foldl applyEnvStepForEntry (SkillEnvGuard.new, env0)) = _
      rw [if_neg (by simp [hcondf])]
    constructor
    · rw [hfin]
      exact hst1
    · rw [(apply_env_overrides_restores [skill] [(skill.skillKey, entry)] env0 pe :)]
      exact h0

/-- Witness for C1: the sample skill maps its primary variable
SAMPLE_API_KEY through the overlay API key. Starting from an empty
environment, the variable carries the key inside the scope and is absent
after disposal; starting from an environment where it is already set to
pre-existing, that value is untouched inside the scope and after disposal. -/
theorem apply_env_overrides_guard_correct_witness :
    (envVar (apply_env_overrides_for_run_with_entries [skillW]
        [(skillW.skillKey, entryW)] []).2 "SAMPLE_API_KEY" = some "secret-key"
      ∧ envVar ((apply_env_overrides_for_run_with_entries [skillW]
            [(skillW.skillKey, entryW)] []).1.restore
          (apply_env_overrides_for_run_with_entries [skillW]
            [(skillW.skillKey, entryW)] []).2) "SAMPLE_API_KEY" = none)
    ∧ (envVar (apply_env_overrides_for_run_with_entries [skillW]
        [(skillW.skillKey, entryW)] [("SAMPLE_API_KEY", "pre-existing")]).2 "SAMPLE_API_KEY"
          = some "pre-existing"
      ∧ envVar ((apply_env_overrides_for_run_with_entries [skillW]
            [(skillW.skillKey, entryW)] [("SAMPLE_API_KEY", "pre-existing")]).1.restore
          (apply_env_overrides_for_run_with_entries [skillW]
            [(skillW.skillKey, entryW)] [("SAMPLE_API_KEY", "pre-existing")]).2) "SAMPLE_API_KEY"
          = some "pre-existing") :=
  ⟨(apply_env_overrides_guard_correct skillW entryW "SAMPLE_API_KEY" "secret-key"
      rfl rfl rfl).2.1 [] rfl,
   (apply_env_overrides_guard_correct skillW entryW "SAMPLE_API_KEY" "secret-key"
      rfl rfl rfl).2.2 [("SAMPLE_API_KEY", "pre-existing")] "pre-existing" (by decide)⟩

theorem lastVal_cons (k v key : String) (E : List (String × String)) :
    lastVal ((k, v) :: E) key
      = match lastVal E key with
        | some w => some w
        | none => if k = key then some v else none := rfl

theorem resolveKey_lastVal_cons {β : Type} (E : List (String × String)) (k key v : String)
    (g : String → β) (b : β) :
    resolveKey g b (lastVal ((k, v) :: E) key)
      = resolveKey g (if k = key then g v else b) (lastVal E key) := by
  rw [lastVal_cons]
  cases hl : lastVal E key with
  | some w => rfl
  | none =>
    by_cases hk : k = key
    · rw [if_pos hk, if_pos hk]
      try rfl
    · rw [if_neg hk, if_neg hk]
      try rfl

theorem badMetadata_cons (jp : String → Option Json) (k v : String)
    (E : List (String × String)) :
    badMetadata jp ((k, v) :: E)
      = (((k = "metadata" : Bool)
          && (match jp v with | none => true | some parsed => !parsed.isObject))
        || badMetadata jp E) := rfl

theorem processKeyValue_error_iff (jp : String → Option Json) (k v : String)
    (acc : Option String × Option String × Option Json) :
    (∃ e, processKeyValue jp k v acc = .error e)
      ↔ ((k = "metadata" : Bool)
          && (match jp v with | none => true | some parsed => !parsed.isObject)) = true := by
  by_cases h1 : k = "name"
  · simp [processKeyValue, h1]
  · by_cases h2 : k = "description"
    · simp [processKeyValue, h1, h2]
    · by_cases h3 : k = "metadata"
      · cases hjp : jp v with
        | none => simp [processKeyValue, h1, h2, h3, hjp]
        | some parsed =>
          by_cases hobj : parsed.isObject = true
          · simp [processKeyValue, h1, h2, h3, hjp, hobj]
          · simp only [Bool.not_eq_true] at hobj
            simp [processKeyValue, h1, h2, h3, hjp, hobj]
      · simp [processKeyValue, h1, h2, h3]

theorem processKeyValue_ok (jp : String → Option Json) (k v : String)
    (acc acc2 : Option String × Option String × Option Json)
    (h : processKeyValue jp k v acc = .ok acc2) :
    acc2.1 = (if k = "name" then some v else acc.1)
    ∧ acc2.2.1 = (if k = "description" then some v else acc.2.1)
    ∧ acc2.2.2 = (if k = "metadata" then jp v else acc.2.2) := by
  by_cases h1 : k = "name"
  · rw [processKeyValue, if_pos h1] at h
    have hd : ¬ k = "description" := by rw [h1]; decide
    have hm : ¬ k = "metadata" := by rw [h1]; decide
    rw [← Except.ok.inj h]
    simp [h1, hd, hm]
  · by_cases h2 : k = "description"
    · rw [processKeyValue, if_neg h1, if_pos h2] at h
      have hm : ¬ k = "metadata" := by rw [h2]; decide
      rw [← Except.ok.inj h]
      simp [h1, h2, hm]
    · by_cases h3 : k = "metadata"
      · rw [processKeyValue, if_neg h1, if_neg h2, if_pos h3] at h
        cases hjp : jp v with
        | none => rw [hjp] at h; exact Except.noConfusion h
        | some parsed =>
          rw [hjp] at h
          replace h : (if parsed.isObject = true then
                (Except.ok (acc.1, acc.2.1, some parsed) :
                  Except String (Option String × Option String × Option Json))
              else Except.error "metadata must be a JSON object") = Except.ok acc2 := h
          by_cases hobj : parsed.isObject = true
          · rw [if_pos hobj] at h
            rw [← Except.ok.inj h]
            simp [h1, h2, h3, hjp]
          · rw [if_neg hobj] at h
            exact Except.noConfusion h
      · rw [processKeyValue, if_neg h1, if_neg h2, if_neg h3] at h
        rw [← Except.ok.inj h]
        simp [h1, h2, h3]

theorem processLines_spec (jp : String → Option Json) (ls : List String) :
    ∀ (n d : Option String) (m : Option Json),
      ((∃ e, processLines jp ls (n, d, m) = .error e) ↔ badMetadata jp (fmEntries ls) = true)
      ∧ (∀ n2 d2 m2, processLines jp ls (n, d, m) = .ok (n2, d2, m2) →
          n2 = resolveKey some n (lastVal (fmEntries ls) "name")
          ∧ d2 = resolveKey some d (lastVal (fmEntries ls) "description")
          ∧ m2 = resolveKey jp m (lastVal (fmEntries ls) "metadata")) := by
  induction ls with
  | nil =>
    intro n d m
    refine ⟨⟨fun he => ?_, fun hbad => ?_⟩, fun n2 d2 m2 h => ?_⟩
    · obtain ⟨e, he⟩ := he
      exact Except.noConfusion he
    · simp [fmEntries, badMetadata] at hbad
    · have h3 := Except.ok.inj h
      obtain ⟨rfl, rfl, rfl⟩ := Prod.mk.injEq .. ▸ h3
      exact ⟨rfl, rfl, rfl⟩
  | cons line rest ih =>
    intro n d m
    cases hfa : fmEntryOfLine line with
    | none =>
      have hproc : processLines jp (line :: rest) (n, d, m) = processLines jp rest (n, d, m) := by
        conv_lhs => rw [processLines]
        simp only [hfa]
      have hfm : fmEntries (line :: rest) = fmEntries rest := by
        unfold fmEntries
        rw [List.filterMap_cons, hfa]
      rw [hproc, hfm]
      exact ih n d m
    | some kv =>
      obtain ⟨k, v⟩ := kv
      have hfm : fmEntries (line :: rest) = (k, v) :: fmEntries rest := by
        unfold fmEntries
        rw [List.filterMap_cons, hfa]
      rw [hfm]
      cases hpk : processKeyValue jp k v (n, d, m) with
      | error e =>
        have hproc : processLines jp (line :: rest) (n, d, m) = .error e := by
          conv_lhs => rw [processLines]
          simp only [hfa, hpk]
        rw [hproc]
        have hbadhead :
            ((k = "metadata" : Bool)
              && (match jp v with | none => true | some parsed => !parsed.isObject)) = true :=
          (processKeyValue_error_iff jp k v (n, d, m)).mp ⟨e, hpk⟩
        refine ⟨⟨fun _ => ?_, fun _ => ⟨e, rfl⟩⟩, fun n2 d2 m2 h => Except.noConfusion h⟩
        rw [badMetadata_cons, hbadhead]
        rfl
      | ok acc2 =>
        obtain ⟨a1, a2, a3⟩ := acc2
        have hproc : processLines jp (line :: rest) (n, d, m)
            = processLines jp rest (a1, a2, a3) := by
          conv_lhs => rw [processLines]
          simp only [hfa, hpk]
        rw [hproc]
        obtain ⟨hu1, hu2, hu3⟩ := processKeyValue_ok jp k v (n, d, m) (a1, a2, a3) hpk
        simp only at hu1 hu2 hu3
        have hbadhead :
            ((k = "metadata" : Bool)
              && (match jp v with | none => true | some parsed => !parsed.isObject)) = false := by
          cases hb : ((k = "metadata" : Bool)
              && (match jp v with | none => true | some parsed => !parsed.isObject)) with
          | false => rfl
          | true =>
            obtain ⟨e, he⟩ := (processKeyValue_error_iff jp k v (n, d, m)).mpr hb
            rw [hpk] at he
            exact Except.noConfusion he
        obtain ⟨ihiff, ihok⟩ := ih a1 a2 a3
        refine ⟨?_, fun n2 d2 m2 h => ?_⟩
        · rw [badMetadata_cons, hbadhead, Bool.false_or]
          exact ihiff
        · obtain ⟨hn, hd, hm⟩ := ihok n2 d2 m2 h
          refine ⟨?_, ?_, ?_⟩
          · rw [resolveKey_lastVal_cons, ← hu1]
            exact hn
          · rw [resolveKey_lastVal_cons, ← hu2]
            exact hd
          · rw [resolveKey_lastVal_cons, ← hu3]
            exact hm

theorem requireKey_error_iff (msgKey : String) (o : Option String) :
    (∃ e, requireKey msgKey o = .error e)
      ↔ (match o with | none => true | some v => (v = "" : Bool)) = true := by
  cases o with
  | none => simp [requireKey]
  | some w => by_cases hw : w = "" <;> simp [requireKey, hw]

theorem requireKey_ok_iff (msgKey : String) (o : Option String) (v : String) :
    requireKey msgKey o = .ok v ↔ o = some v ∧ ¬ v = "" := by
  cases o with
  | none => simp [requireKey]
  | some w =>
    by_cases hw : w = ""
    · subst hw
      constructor
      · intro h
        simp [requireKey] at h
      · rintro ⟨h1, h2⟩
        exact absurd (Option.some_inj.mp h1).symm h2
    · constructor
      · intro h
        rw [requireKey, if_neg hw] at h
        have hwv : w = v := Except.ok.inj h
        exact ⟨by rw [hwv], hwv ▸ hw⟩
      · rintro ⟨h1, h2⟩
        have hwv : w = v := Option.some_inj.mp h1
        rw [requireKey, if_neg hw, hwv]

theorem resolveKey_some_none (o : Option String) : resolveKey some none o = o := by
  cases o <;> rfl

/-- C5: the strict frontmatter parser returns an error exactly when the
document lacks the three-dash start delimiter on its first line, lacks a
matching end delimiter line, carries a metadata value that does not parse as
a JSON object, or is missing (or carries empty as the final value of) the
required name or description key — `fmBlock content = none` states precisely
that one of the two delimiters is missing. Otherwise it returns the
frontmatter holding exactly the final name and description values and the
parse of the final metadata value. -/
theorem parse_skill_md_content_spec (jp : String → Option Json) (content : String) :
    ((parse_skill_md_content jp content).isOk = false ↔
      (fmBlock content = none
       ∨ ∃ ls, fmBlock content = some ls
           ∧ (badMetadata jp (fmEntries ls) = true
              ∨ missingKeyVal (fmEntries ls) "name" = true
              ∨ missingKeyVal (fmEntries ls) "description" = true)))
    ∧ (∀ fm, parse_skill_md_content jp content = .ok fm →
        ∃ ls, fmBlock content = some ls
          ∧ lastVal (fmEntries ls) "name" = some fm.name
          ∧ lastVal (fmEntries ls) "description" = some fm.description
          ∧ fm.metadata = resolveKey jp none (lastVal (fmEntries ls) "metadata")) := by
  cases hru : rustLines content with
  | nil =>
    have hp : parse_skill_md_content jp content = .error "missing frontmatter start delimiter" := by
      unfold parse_skill_md_content
      simp only [hru]
    have hbn : fmBlock content = none := by
      unfold fmBlock
      simp only [hru]
    rw [hp, hbn]
    exact ⟨by simp [Except.isOk, Except.toBool], fun fm h => Except.noConfusion h⟩
  | cons firstLine rest =>
    by_cases hfl : strTrim firstLine = "---"
    · have hnotstart : ¬((!(strTrim firstLine = "---" : Bool)) = true) := by simp [hfl]
      have hb0 : fmBlock content = takeUntilDelim rest := by
        unfold fmBlock
        simp only [hru]
        rw [if_pos hfl]
      cases htd : takeUntilDelim rest with
      | none =>
        have hp : parse_skill_md_content jp content
            = .error "missing frontmatter end delimiter" := by
          unfold parse_skill_md_content
          simp only [hru]
          rw [if_neg hnotstart]
          simp only [htd]
        rw [hp, hb0, htd]
        exact ⟨by simp [Except.isOk, Except.toBool], fun fm h => Except.noConfusion h⟩
      | some fmLines =>
        have hb : fmBlock content = some fmLines := by rw [hb0, htd]
        obtain ⟨hiff, hok⟩ := processLines_spec jp fmLines none none none
        cases hpl : processLines jp fmLines (none, none, none) with
        | error e =>
          have hbad : badMetadata jp (fmEntries fmLines) = true := hiff.mp ⟨e, hpl⟩
          have hp : parse_skill_md_content jp content = .error e := by
            unfold parse_skill_md_content
            simp only [hru]
            rw [if_neg hnotstart]
            simp only [htd, hpl]
          rw [hp, hb]
          refine ⟨⟨fun _ => Or.inr ⟨fmLines, rfl, Or.inl hbad⟩, fun _ => rfl⟩,
            fun fm h => Except.noConfusion h⟩
        | ok acc =>
          obtain ⟨n2, d2, m2⟩ := acc
          obtain ⟨hn, hd, hm⟩ := hok n2 d2 m2 hpl
          rw [resolveKey_some_none] at hn hd
          subst hn
          subst hd
          have hbadf : badMetadata jp (fmEntries fmLines) = false := by
            cases hbm : badMetadata jp (fmEntries fmLines) with
            | false => rfl
            | true =>
              obtain ⟨e, he⟩ := hiff.mpr hbm
              rw [hpl] at he
              exact Except.noConfusion he
          have hp0 : parse_skill_md_content jp content
              = (match requireKey "name" (lastVal (fmEntries fmLines) "name") with
                 | .error e => .error e
                 | .ok nv =>
                   match requireKey "description" (lastVal (fmEntries fmLines) "description") with
                   | .error e => .error e
                   | .ok dv => .ok { name := nv, description := dv, metadata := m2 }) := by
            unfold parse_skill_md_content
            simp only [hru]
            rw [if_neg hnotstart]
            simp only [htd, hpl]
          rw [hp0, hb]
          cases hrn : requireKey "name" (lastVal (fmEntries fmLines) "name") with
          | error e =>
            have hmiss : missingKeyVal (fmEntries fmLines) "name" = true :=
              (requireKey_error_iff "name" (lastVal (fmEntries fmLines) "name")).mp ⟨e, hrn⟩
            refine ⟨⟨fun _ => Or.inr ⟨fmLines, rfl, Or.inr (Or.inl hmiss)⟩, fun _ => rfl⟩,
              fun fm h => Except.noConfusion h⟩
          | ok nv =>
            obtain ⟨hlvn, hnv⟩ := (requireKey_ok_iff _ _ _).mp hrn
            have hmn : missingKeyVal (fmEntries fmLines) "name" = false := by
              unfold missingKeyVal
              simp only [hlvn]
              simp [hnv]
            cases hrd : requireKey "description" (lastVal (fmEntries fmLines) "description") with
            | error e =>
              have hmiss : missingKeyVal (fmEntries fmLines) "description" = true :=
                (requireKey_error_iff "description"
                  (lastVal (fmEntries fmLines) "description")).mp ⟨e, hrd⟩
              refine ⟨⟨fun _ => Or.inr ⟨fmLines, rfl, Or.inr (Or.inr hmiss)⟩, fun _ => rfl⟩,
                fun fm h => Except.noConfusion h⟩
            | ok dv =>
              obtain ⟨hlvd, hdv⟩ := (requireKey_ok_iff _ _ _).mp hrd
              have hmd : missingKeyVal (fmEntries fmLines) "description" = false := by
                unfold missingKeyVal
                simp only [hlvd]
                simp [hdv]
              refine ⟨⟨fun habs => ?_, ?_⟩, fun fm h => ?_⟩
              · exact absurd habs (by simp [Except.isOk, Except.toBool])
              · rintro (hB | ⟨ls, hls, hbad2⟩)
                · exact Option.noConfusion hB
                · obtain rfl : ls = fmLines := (Option.some_inj.mp hls).symm
                  rcases hbad2 with hx | hx | hx
                  · rw [hbadf] at hx
                    exact Bool.noConfusion hx
                  · rw [hmn] at hx
                    exact Bool.noConfusion hx
                  · rw [hmd] at hx
                    exact Bool.noConfusion hx
              · have hfme := Except.ok.inj h
                refine ⟨fmLines, rfl, ?_, ?_, ?_⟩
                · rw [← hfme]
                  exact hlvn
                · rw [← hfme]
                  exact hlvd
                · rw [← hfme]
                  exact hm
    · have hp : parse_skill_md_content jp content
          = .error "missing frontmatter start delimiter" := by
        unfold parse_skill_md_content
        simp only [hru]
        rw [if_pos (show (!(strTrim firstLine = "---" : Bool)) = true by simp [hfl])]
      have hbn : fmBlock content = none := by
        unfold fmBlock
        simp only [hru]
        rw [if_neg hfl]
      rw [hp, hbn]
      exact ⟨by simp [Except.isOk, Except.toBool], fun fm h => Except.noConfusion h⟩

/-- Witness for C5: a document with no frontmatter delimiters is rejected by
the strict parser. -/
theorem parse_skill_md_content_spec_witness :
    (parse_skill_md_content jpW "name: nope\n").isOk = false :=
  (parse_skill_md_content_spec jpW "name: nope\n").1.mpr (Or.inl (by decide))

end Clawpilot
